import Mathlib

/-!
Shallow embedding of the "install-helpers" orchestrator
(COT/install_helpers.py, class COTInstallHelpers, method run), together
with the pieces of its environment that the method observes: the five
helper classes it instantiates (their name, detected path/version, and
the behaviour of install_helper), the textwrap.TextWrapper configuration
it builds, and the exceptions it catches.

The run method iterates the helper classes in a fixed order, builds a
dict of per-tool outcome strings, prints a report, and finally raises
EnvironmentError(1, "Unable to install some helpers") when some
installation failed and ignore_errors is unset.
-/

set_option autoImplicit false

namespace COT

/-- Python exceptions that can escape a helper's install_helper call.
The except clause in run catches exactly NotImplementedError,
HelperError and HelperNotFoundError; any other exception propagates. -/
inductive PyExc where
  | notImplementedError (m : String)
  | helperError (m : String)
  | helperNotFoundError (m : String)
  | otherExc (m : String)
deriving DecidableEq

/-- Python str(e): the message carried by the exception. -/
def PyExc.msg : PyExc → String
  | .notImplementedError m => m
  | .helperError m => m
  | .helperNotFoundError m => m
  | .otherExc m => m

/-- Whether the exception is one of the three classes named in the
except clause of run. -/
def PyExc.caught : PyExc → Bool
  | .notImplementedError _ => true
  | .helperError _ => true
  | .helperNotFoundError _ => true
  | .otherExc _ => false

/-- Behaviour of a helper's install_helper call on this host: either it
returns and the helper afterwards reports the given path and version, or
it raises an exception. -/
inductive InstallResult where
  | ok (newPath newVersion : String)
  | raised (e : PyExc)
deriving DecidableEq

/-- Modelled from the spec: the helper classes (COT.helpers.fatdisk and
friends) are outside the visible source; per the Detector contract the
resolved path is empty exactly when the tool is not found, and the
version is the detected version string.  The install field gives the
behaviour of install_helper on this host. -/
structure HelperState where
  path : String
  version : String
  install : InstallResult
deriving DecidableEq

/-- The five helper classes instantiated by run, identified by their
tool name. -/
inductive Tool where
  | fatdisk | mkisofs | ovftool | qemu_img | vmdktool
deriving DecidableEq

/-- Modelled from the spec: the name attribute of each helper class
(the subcommand epilog in the visible source shows the same names). -/
def Tool.name : Tool → String
  | .fatdisk => "fatdisk"
  | .mkisofs => "mkisofs"
  | .ovftool => "ovftool"
  | .qemu_img => "qemu-img"
  | .vmdktool => "vmdktool"

/-- The list [FatDisk, MkIsoFS, OVFTool, QEMUImg, VmdkTool] iterated by
run, in source order. -/
def toolOrder : List Tool :=
  [Tool.fatdisk, Tool.mkisofs, Tool.ovftool, Tool.qemu_img, Tool.vmdktool]

/-- Outcome string for a helper found by detection:
"version {0}, present at {1}".format(helper.version, str(helper.path)). -/
def presentText (h : HelperState) : String :=
  "version " ++ h.version ++ ", present at " ++ h.path

/-- Outcome string for a successful installation:
"successfully installed to {0}, version {1}".format(str(helper.path), helper.version). -/
def installedText (p v : String) : String :=
  "successfully installed to " ++ p ++ ", version " ++ v

/-- Outcome string for a caught installation failure:
"INSTALLATION FAILED: " + str(e). -/
def failedText (m : String) : String :=
  "INSTALLATION FAILED: " ++ m

/-- Python dict assignment d[k] = v on a dict represented as an
insertion-ordered association list. -/
def dictInsert (d : List (String × String)) (k v : String) :
    List (String × String) :=
  if d.any (fun p => p.1 == k) then
    d.map (fun p => if p.1 == k then (k, v) else p)
  else d ++ [(k, v)]

/-- Python dict lookup d[k] (as an Option). -/
def dictGet (d : List (String × String)) (k : String) : Option String :=
  (d.find? (fun p => p.1 == k)).map Prod.snd

/-- State of the loop in run: the local variable result, the dict
results, and (instrumentation for the external world) the names of the
helpers whose install_helper was invoked, in call order. -/
structure LoopAcc where
  result : Bool
  results : List (String × String)
  installed_calls : List String
deriving DecidableEq

/-- Loop state on entry: result = True, results = {}. -/
def initAcc : LoopAcc := ⟨true, [], []⟩

/-- One iteration of the loop in run, for the helper with the given
name and host state.  Returns the updated loop state, or the exception
(with the state at that point) when install_helper raises an exception
not named in the except clause. -/
def processTool (verifyOnly : Bool) (n : String) (h : HelperState)
    (acc : LoopAcc) : Except (PyExc × LoopAcc) LoopAcc :=
  if h.path ≠ "" then
    .ok { acc with results := dictInsert acc.results n (presentText h) }
  else if verifyOnly then
    .ok { acc with results := dictInsert acc.results n "NOT FOUND" }
  else
    let acc' := { acc with installed_calls := acc.installed_calls ++ [n] }
    match h.install with
    | .ok p v =>
        .ok { acc' with results := dictInsert acc'.results n (installedText p v) }
    | .raised e =>
        if e.caught then
          .ok { acc' with
                result := false,
                results := dictInsert acc'.results n (failedText e.msg) }
        else .error (e, acc')

/-- The whole for-loop of run over a list of helper classes. -/
def processAll (verifyOnly : Bool) (host : Tool → HelperState) :
    List Tool → LoopAcc → Except (PyExc × LoopAcc) LoopAcc
  | [], acc => .ok acc
  | t :: ts, acc =>
    match processTool verifyOnly t.name (host t) acc with
    | .ok acc' => processAll verifyOnly host ts acc'
    | .error ea => .error ea

/-- The outcome string the loop records for a helper in the given host
state (none when install_helper raises an uncaught exception). -/
def toolOutcome (verifyOnly : Bool) (h : HelperState) : Option String :=
  if h.path ≠ "" then some (presentText h)
  else if verifyOnly then some "NOT FOUND"
  else
    match h.install with
    | .ok p v => some (installedText p v)
    | .raised e => if e.caught then some (failedText e.msg) else none

/-- Whether the iteration for this helper sets result = False (a caught
installation failure). -/
def toolFailed (verifyOnly : Bool) (h : HelperState) : Bool :=
  if h.path ≠ "" then false
  else if verifyOnly then false
  else
    match h.install with
    | .ok _ _ => false
    | .raised e => e.caught

/-- Names of the helpers in the list whose install_helper the loop
invokes: those with empty detected path, outside verify-only mode. -/
def installCallsFor (verifyOnly : Bool) (host : Tool → HelperState)
    (ts : List Tool) : List String :=
  (ts.filter (fun t => (host t).path == "" && !verifyOnly)).map Tool.name

/-- Arguments run passes to textwrap.TextWrapper. -/
structure WrapperConfig where
  width : Nat
  initial_indent : String
  subsequent_indent : String
deriving DecidableEq

/-- TextWrapper(width=self.UI.terminal_width(), initial_indent="",
subsequent_indent=" " * 14). -/
def mkWrapper (termWidth : Nat) : WrapperConfig :=
  { width := termWidth
    initial_indent := ""
    subsequent_indent := String.mk (List.replicate 14 ' ') }

/-- Python "{0:13}".format(s): left-justify in a field of width 13
(no truncation). -/
def format13 (s : String) : String :=
  s ++ String.mk (List.replicate (13 - s.length) ' ')

/-- The text handed to wrapper.fill for one tool:
"{0:13} {1}".format(k + ":", results[k]). -/
def entryLine (k out : String) : String :=
  format13 (k ++ ":") ++ " " ++ out

/-- Lexicographic comparison of strings by code point, as Python
compares str values. -/
def charListLe : List Char → List Char → Bool
  | [], _ => true
  | _ :: _, [] => false
  | a :: as, b :: bs =>
    if a.toNat < b.toNat then true
    else if b.toNat < a.toNat then false
    else charListLe as bs

/-- String comparison used by sorted(): a is less than or equal to b. -/
def strLe (a b : String) : Bool :=
  charListLe a.data b.data

/-- Insert a string into an already sorted list, keeping it sorted. -/
def insertSorted (x : String) : List String → List String
  | [] => [x]
  | y :: ys => if strLe x y then x :: y :: ys else y :: insertSorted x ys

/-- Stable insertion sort of strings in ascending order. -/
def sortStrings (l : List String) : List String :=
  l.foldr insertSorted []

/-- Python sorted(results.keys()): the keys in ascending lexicographic
order. -/
def sortedKeys (d : List (String × String)) : List String :=
  sortStrings (d.map Prod.fst)

/-- The sequence of print calls made by run once the loop has finished:
header, separator, one wrapper.fill per key of results in sorted order,
and a final empty print. -/
def reportLines (fill : String → String) (d : List (String × String)) :
    List String :=
  "Results:" :: "-------------" ::
    ((sortedKeys d).map (fun k => fill (entryLine k ((dictGet d k).getD "")))
      ++ [""])

/-- Observable outcome of one call to run: a normal return with the
printed report, the EnvironmentError raise (errno 1) after the printed
report, or an uncaught exception escaping the loop before anything was
printed.  The results dict and the list of install_helper invocations
are carried as instrumentation of the run. -/
inductive RunOutcome where
  | normal (printed : List String) (results : List (String × String))
      (installCalls : List String)
  | envError (printed : List String) (errno : Nat) (strerror : String)
      (results : List (String × String)) (installCalls : List String)
  | uncaught (e : PyExc) (installCalls : List String)
deriving DecidableEq

/-- COTInstallHelpers.run, parameterised by the host state of the five
helpers, the two flags, the textwrap library (a function from a wrapper
configuration to a fill function) and the terminal width reported by
the UI. -/
def run (host : Tool → HelperState) (verifyOnly ignoreErrors : Bool)
    (textwrapFill : WrapperConfig → String → String) (termWidth : Nat) :
    RunOutcome :=
  match processAll verifyOnly host toolOrder initAcc with
  | .error (e, acc) => .uncaught e acc.installed_calls
  | .ok acc =>
    let printed := reportLines (textwrapFill (mkWrapper termWidth)) acc.results
    if !acc.result && !ignoreErrors then
      .envError printed 1 "Unable to install some helpers"
        acc.results acc.installed_calls
    else
      .normal printed acc.results acc.installed_calls

/-- Lines printed by the run (empty when the loop died on an uncaught
exception, since run prints only after the loop). -/
def RunOutcome.printed : RunOutcome → List String
  | .normal p _ _ => p
  | .envError p _ _ _ _ => p
  | .uncaught _ _ => []

/-- The results dict at the end of the run (empty in the uncaught case:
it is never observed, nothing is printed). -/
def RunOutcome.resultsOf : RunOutcome → List (String × String)
  | .normal _ r _ => r
  | .envError _ _ _ r _ => r
  | .uncaught _ _ => []

/-- Which helpers' install_helper was invoked during the run. -/
def RunOutcome.installCalls : RunOutcome → List String
  | .normal _ _ c => c
  | .envError _ _ _ _ c => c
  | .uncaught _ c => c

/-- Whether run returned normally. -/
def RunOutcome.isNormal : RunOutcome → Bool
  | .normal _ _ _ => true
  | _ => false

/-- Whether run raised the final EnvironmentError. -/
def RunOutcome.isEnvError : RunOutcome → Bool
  | .envError _ _ _ _ _ => true
  | _ => false

/-- The errno and message of the final EnvironmentError, when raised. -/
def RunOutcome.errInfo : RunOutcome → Option (Nat × String)
  | .envError _ n m _ _ => some (n, m)
  | _ => none

/-- The local variable result at the end of the loop (none when the
loop is aborted by an uncaught exception). -/
def overallResult (verifyOnly : Bool) (host : Tool → HelperState) :
    Option Bool :=
  match processAll verifyOnly host toolOrder initAcc with
  | .ok acc => some acc.result
  | .error _ => none

/-- The spec's four outcome shapes, with the concrete strings the code
builds: found by detection, absent under verify-only, installed during
the run, and failed installation. -/
def fourForms (s : String) : Prop :=
  (∃ v p, s = "version " ++ v ++ ", present at " ++ p)
  ∨ s = "NOT FOUND"
  ∨ (∃ p v, s = "successfully installed to " ++ p ++ ", version " ++ v)
  ∨ (∃ d, s = "INSTALLATION FAILED: " ++ d)

/-- Loop state after one successful (non-raising) iteration recording
outcome s for the helper named n. -/
def stepAcc (vo : Bool) (n : String) (h : HelperState) (s : String)
    (acc : LoopAcc) : LoopAcc :=
  { result := acc.result && !toolFailed vo h
    results := dictInsert acc.results n s
    installed_calls := acc.installed_calls
      ++ (if h.path = "" ∧ vo = false then [n] else []) }

theorem dictInsert_fresh (d : List (String × String)) (k v : String)
    (h : ∀ p ∈ d, p.1 ≠ k) : dictInsert d k v = d ++ [(k, v)] := by
  unfold dictInsert
  rw [if_neg]
  simp only [List.any_eq_true, beq_iff_eq, not_exists, not_and]
  intro p hp
  exact h p hp

theorem processTool_char (vo : Bool) (n : String) (h : HelperState)
    (acc : LoopAcc) :
    (∃ s, toolOutcome vo h = some s ∧
       processTool vo n h acc = Except.ok (stepAcc vo n h s acc))
    ∨ (∃ e, h.install = InstallResult.raised e ∧ e.caught = false ∧
         h.path = "" ∧ vo = false ∧ toolOutcome vo h = none ∧
         processTool vo n h acc = Except.error
           (e, { acc with installed_calls := acc.installed_calls ++ [n] })) := by
  by_cases hp : h.path = ""
  · cases vo with
    | true =>
        left
        refine ⟨"NOT FOUND", ?_, ?_⟩
        · simp [toolOutcome, hp]
        · simp [processTool, stepAcc, toolFailed, hp]
    | false =>
        cases hi : h.install with
        | ok p v =>
            left
            refine ⟨installedText p v, ?_, ?_⟩
            · simp [toolOutcome, hp, hi]
            · simp [processTool, stepAcc, toolFailed, hp, hi]
        | raised e =>
            cases hc : e.caught with
            | true =>
                left
                refine ⟨failedText e.msg, ?_, ?_⟩
                · simp [toolOutcome, hp, hi, hc]
                · simp [processTool, stepAcc, toolFailed, hp, hi, hc]
            | false =>
                right
                refine ⟨e, rfl, hc, hp, rfl, ?_, ?_⟩
                · simp [toolOutcome, hp, hi, hc]
                · simp [processTool, hp, hi, hc]
  · left
    refine ⟨presentText h, ?_, ?_⟩
    · simp [toolOutcome, hp]
    · simp [processTool, stepAcc, toolFailed, hp]

theorem processAll_cons (vo : Bool) (host : Tool → HelperState) (t : Tool)
    (ts : List Tool) (acc : LoopAcc) :
    processAll vo host (t :: ts) acc =
      match processTool vo t.name (host t) acc with
      | .ok acc' => processAll vo host ts acc'
      | .error ea => .error ea := rfl

theorem processAll_append (vo : Bool) (host : Tool → HelperState) :
    ∀ (ts1 ts2 : List Tool) (acc : LoopAcc),
      processAll vo host (ts1 ++ ts2) acc =
        match processAll vo host ts1 acc with
        | .ok acc1 => processAll vo host ts2 acc1
        | .error ea => .error ea := by
  intro ts1
  induction ts1 with
  | nil => intro ts2 acc; rfl
  | cons t ts ih =>
      intro ts2 acc
      rw [List.cons_append, processAll_cons, processAll_cons]
      cases processTool vo t.name (host t) acc with
      | ok acc' => exact ih ts2 acc'
      | error ea => rfl

theorem installCallsFor_cons (vo : Bool) (host : Tool → HelperState)
    (t : Tool) (ts : List Tool) :
    installCallsFor vo host (t :: ts)
      = (if (host t).path = "" ∧ vo = false then [t.name] else [])
        ++ installCallsFor vo host ts := by
  simp only [installCallsFor, List.filter_cons]
  by_cases h1 : (host t).path = ""
  · cases vo with
    | false => simp [h1]
    | true => simp [h1]
  · simp [h1]

theorem processAll_ok_char (vo : Bool) (host : Tool → HelperState) :
    ∀ (ts : List Tool) (acc₀ acc : LoopAcc),
      (∀ t ∈ ts, ∀ p ∈ acc₀.results, p.1 ≠ t.name) →
      (ts.map Tool.name).Nodup →
      processAll vo host ts acc₀ = Except.ok acc →
      ((∀ t ∈ ts, (toolOutcome vo (host t)).isSome = true)
        ∧ acc.result = (acc₀.result && !(ts.any fun t => toolFailed vo (host t)))
        ∧ acc.results = acc₀.results
            ++ ts.map (fun t => (t.name, (toolOutcome vo (host t)).getD ""))
        ∧ acc.installed_calls
            = acc₀.installed_calls ++ installCallsFor vo host ts) := by
  intro ts
  induction ts with
  | nil =>
      intro acc₀ acc _ _ hrun
      simp only [processAll] at hrun
      injection hrun with h
      subst h
      refine ⟨by simp, by simp, by simp, by simp [installCallsFor]⟩
  | cons t ts ih =>
      intro acc₀ acc hfresh hnd hrun
      rw [List.map_cons, List.nodup_cons] at hnd
      rw [processAll_cons] at hrun
      rcases processTool_char vo t.name (host t) acc₀ with
        ⟨s, hs, hstep⟩ | ⟨e, _, _, _, _, _, hstep⟩
      · rw [hstep] at hrun
        have hrun' : processAll vo host ts (stepAcc vo t.name (host t) s acc₀)
            = Except.ok acc := hrun
        have hfreshT : ∀ p ∈ acc₀.results, p.1 ≠ t.name :=
          fun p hp => hfresh t (List.mem_cons_self t ts) p hp
        have hins : dictInsert acc₀.results t.name s
            = acc₀.results ++ [(t.name, s)] :=
          dictInsert_fresh _ _ _ hfreshT
        have hfresh' : ∀ u ∈ ts, ∀ p ∈ (stepAcc vo t.name (host t) s acc₀).results,
            p.1 ≠ u.name := by
          intro u hu p hp
          simp only [stepAcc, hins] at hp
          rcases List.mem_append.mp hp with hp0 | hp1
          · exact hfresh u (List.mem_cons_of_mem t hu) p hp0
          · have hpe : p = (t.name, s) := by simpa using hp1
            rw [hpe]
            intro he
            have he' : t.name = u.name := he
            exact hnd.1 (by rw [he']; exact List.mem_map_of_mem Tool.name hu)
        obtain ⟨ih1, ih2, ih3, ih4⟩ := ih _ acc hfresh' hnd.2 hrun'
        refine ⟨?_, ?_, ?_, ?_⟩
        · intro u hu
          rcases List.mem_cons.mp hu with rfl | hu'
          · rw [hs]; rfl
          · exact ih1 u hu'
        · rw [ih2]
          simp only [stepAcc, List.any_cons, Bool.not_or, Bool.and_assoc]
        · rw [ih3]
          simp only [stepAcc, hins, List.map_cons]
          rw [List.append_assoc]
          have : (toolOutcome vo (host t)).getD "" = s := by rw [hs]; rfl
          rw [this]
          rfl
        · rw [ih4]
          simp only [stepAcc]
          rw [installCallsFor_cons, List.append_assoc]
      · rw [hstep] at hrun
        exact Except.noConfusion hrun

theorem processAll_ok_of_isSome (vo : Bool) (host : Tool → HelperState) :
    ∀ (ts : List Tool) (acc₀ : LoopAcc),
      (∀ t ∈ ts, (toolOutcome vo (host t)).isSome = true) →
      ∃ acc, processAll vo host ts acc₀ = Except.ok acc := by
  intro ts
  induction ts with
  | nil => intro acc₀ _; exact ⟨acc₀, rfl⟩
  | cons t ts ih =>
      intro acc₀ hsome
      rcases processTool_char vo t.name (host t) acc₀ with
        ⟨s, _, hstep⟩ | ⟨e, _, _, _, _, hnone, _⟩
      · obtain ⟨acc, hacc⟩ := ih (stepAcc vo t.name (host t) s acc₀)
          (fun u hu => hsome u (List.mem_cons_of_mem t hu))
        refine ⟨acc, ?_⟩
        rw [processAll_cons, hstep]
        exact hacc
      · have hcontra := hsome t (List.mem_cons_self t ts)
        rw [hnone] at hcontra
        cases hcontra

theorem mem_toolOrder (t : Tool) : t ∈ toolOrder := by
  cases t <;> simp [toolOrder]

theorem toolOrder_names_nodup : (toolOrder.map Tool.name).Nodup := by decide

theorem name_inj (a b : Tool) (h : a.name = b.name) : a = b := by
  revert h
  cases a <;> cases b <;> decide

theorem processAll_run_char (vo : Bool) (host : Tool → HelperState)
    (acc : LoopAcc)
    (hok : processAll vo host toolOrder initAcc = Except.ok acc) :
    (∀ t : Tool, (toolOutcome vo (host t)).isSome = true)
    ∧ acc.result = !(toolOrder.any fun t => toolFailed vo (host t))
    ∧ acc.results
        = toolOrder.map (fun t => (t.name, (toolOutcome vo (host t)).getD ""))
    ∧ acc.installed_calls = installCallsFor vo host toolOrder := by
  obtain ⟨h1, h2, h3, h4⟩ :=
    processAll_ok_char vo host toolOrder initAcc acc
      (by simp [initAcc]) toolOrder_names_nodup hok
  refine ⟨fun t => h1 t (mem_toolOrder t), ?_, ?_, ?_⟩
  · simpa [initAcc] using h2
  · simpa [initAcc] using h3
  · simpa [initAcc] using h4

theorem run_eq_of_ok (host : Tool → HelperState) (vo ie : Bool)
    (fillI : WrapperConfig → String → String) (w : Nat) (acc : LoopAcc)
    (hok : processAll vo host toolOrder initAcc = Except.ok acc) :
    run host vo ie fillI w =
      if !acc.result && !ie then
        RunOutcome.envError (reportLines (fillI (mkWrapper w)) acc.results) 1
          "Unable to install some helpers" acc.results acc.installed_calls
      else
        RunOutcome.normal (reportLines (fillI (mkWrapper w)) acc.results)
          acc.results acc.installed_calls := by
  unfold run
  rw [hok]

theorem run_eq_of_error (host : Tool → HelperState) (vo ie : Bool)
    (fillI : WrapperConfig → String → String) (w : Nat) (e : PyExc)
    (acc : LoopAcc)
    (herr : processAll vo host toolOrder initAcc = Except.error (e, acc)) :
    run host vo ie fillI w = RunOutcome.uncaught e acc.installed_calls := by
  unfold run
  rw [herr]

theorem dictGet_map_tools (g : Tool → String) :
    ∀ (ts : List Tool), (ts.map Tool.name).Nodup →
      ∀ t ∈ ts, dictGet (ts.map fun u => (u.name, g u)) t.name = some (g t) := by
  intro ts
  induction ts with
  | nil => intro _ t ht; cases ht
  | cons u us ih =>
      intro hnd t ht
      rw [List.map_cons, List.nodup_cons] at hnd
      rcases List.mem_cons.mp ht with rfl | htu
      · simp [dictGet]
      · have hne : (u.name == t.name) = false := by
          simp only [beq_eq_false_iff_ne, ne_eq]
          intro he
          exact hnd.1 (by rw [he]; exact List.mem_map_of_mem Tool.name htu)
        simp only [dictGet, List.map_cons]
        rw [List.find?_cons_of_neg _ (by simp [hne])]
        have := ih hnd.2 t htu
        simpa [dictGet] using this

theorem dictGet_mem (d : List (String × String)) (k s : String)
    (h : dictGet d k = some s) : (k, s) ∈ d := by
  unfold dictGet at h
  cases hf : List.find? (fun p => p.1 == k) d with
  | none => rw [hf] at h; cases h
  | some q =>
      rw [hf] at h
      have hq := List.find?_some hf
      have hm : q ∈ d := List.mem_of_find?_eq_some hf
      have h1 : q.1 = k := by simpa using hq
      have h2 : q.2 = s := by simpa using h
      have hqe : q = (k, s) := by
        cases q
        simp_all
      rw [← hqe]
      exact hm

theorem toolOutcome_forms (vo : Bool) (h : HelperState) (s : String)
    (hs : toolOutcome vo h = some s) : fourForms s := by
  unfold fourForms
  unfold toolOutcome at hs
  split at hs
  · injection hs with hs'
    exact Or.inl ⟨h.version, h.path, hs'.symm⟩
  · split at hs
    · injection hs with hs'
      exact Or.inr (Or.inl hs'.symm)
    · split at hs
      · injection hs with hs'
        exact Or.inr (Or.inr (Or.inl ⟨_, _, hs'.symm⟩))
      · split at hs
        · injection hs with hs'
          exact Or.inr (Or.inr (Or.inr ⟨_, hs'.symm⟩))
        · cases hs

theorem ne_append_of_head_ne (s pre : String) (c d : Char)
    (hs : s.data.head? = some c) (hp : pre.data.head? = some d) (hcd : c ≠ d)
    (suf : String) : s ≠ pre ++ suf := by
  intro he
  have hdata : s.data = pre.data ++ suf.data := by rw [he]; rfl
  cases hpd : pre.data with
  | nil => rw [hpd] at hp; cases hp
  | cons a l =>
      rw [hpd] at hp
      rw [hdata, hpd] at hs
      simp only [List.cons_append, List.head?_cons] at hs hp
      injection hs with h1
      injection hp with h2
      exact hcd (by rw [← h1, ← h2])

theorem processAll_not_called (vo : Bool) (host : Tool → HelperState) (t : Tool)
    (hp : (host t).path ≠ "") :
    ∀ (ts : List Tool) (acc₀ : LoopAcc), t.name ∉ acc₀.installed_calls →
      (∀ acc, processAll vo host ts acc₀ = Except.ok acc →
          t.name ∉ acc.installed_calls)
      ∧ (∀ e acc', processAll vo host ts acc₀ = Except.error (e, acc') →
          t.name ∉ acc'.installed_calls) := by
  intro ts
  induction ts with
  | nil =>
      intro acc₀ h₀
      constructor
      · intro acc hacc
        injection hacc with h
        rw [← h]
        exact h₀
      · intro e acc' hacc
        cases hacc
  | cons u us ih =>
      intro acc₀ h₀
      have hstep₀ : t.name ∉ acc₀.installed_calls
          ++ (if (host u).path = "" ∧ vo = false then [u.name] else []) := by
        intro hmem
        rcases List.mem_append.mp hmem with hm | hm
        · exact h₀ hm
        · by_cases hc : (host u).path = "" ∧ vo = false
          · rw [if_pos hc] at hm
            have hne : t.name = u.name := by simpa using hm
            have htu : t = u := name_inj t u hne
            rw [htu] at hp
            exact hp hc.1
          · rw [if_neg hc] at hm
            cases hm
      constructor
      · intro acc hacc
        rw [processAll_cons] at hacc
        rcases processTool_char vo u.name (host u) acc₀ with
          ⟨s, _, hstep⟩ | ⟨e', _, _, _, _, _, hstep⟩
        · rw [hstep] at hacc
          have hacc' : processAll vo host us (stepAcc vo u.name (host u) s acc₀)
              = Except.ok acc := hacc
          exact (ih _ hstep₀).1 acc hacc'
        · rw [hstep] at hacc
          exact Except.noConfusion hacc
      · intro e acc' hacc
        rw [processAll_cons] at hacc
        rcases processTool_char vo u.name (host u) acc₀ with
          ⟨s, _, hstep⟩ | ⟨e', _, _, hpe, _, _, hstep⟩
        · rw [hstep] at hacc
          have hacc' : processAll vo host us (stepAcc vo u.name (host u) s acc₀)
              = Except.error (e, acc') := hacc
          exact (ih _ hstep₀).2 e acc' hacc'
        · rw [hstep] at hacc
          have hacc' : (Except.error
              (e', { acc₀ with
                     installed_calls := acc₀.installed_calls ++ [u.name] })
              : Except (PyExc × LoopAcc) LoopAcc) = Except.error (e, acc') := hacc
          injection hacc' with hpair
          have h2 : ({ acc₀ with
              installed_calls := acc₀.installed_calls ++ [u.name] } : LoopAcc)
              = acc' := congrArg Prod.snd hpair
          rw [← h2]
          show t.name ∉ acc₀.installed_calls ++ [u.name]
          intro hmem
          rcases List.mem_append.mp hmem with hm | hm
          · exact h₀ hm
          · have hne : t.name = u.name := by simpa using hm
            have htu : t = u := name_inj t u hne
            rw [htu] at hp
            exact hp hpe

/-- Host on which every tool is found by detection. -/
def hostAllPresent : Tool → HelperState := fun t =>
  { path := "/usr/bin/" ++ t.name, version := "1.0", install := .ok "" "" }

/-- Host on which fatdisk is absent and the other four tools are found. -/
def hostOneMissing : Tool → HelperState := fun t =>
  if t = Tool.fatdisk then
    { path := "", version := "",
      install := .raised (.helperNotFoundError "no installer") }
  else
    { path := "/usr/bin/" ++ t.name, version := "1.0", install := .ok "" "" }

/-- Host on which fatdisk is absent but installable, ovftool is absent
with a manual-only installer that raises NotImplementedError, and the
other three tools are found. -/
def hostMixed : Tool → HelperState := fun t =>
  match t with
  | .fatdisk => { path := "", version := "",
                  install := .ok "/usr/local/bin/fatdisk" "1.0.2" }
  | .ovftool => { path := "", version := "",
                  install := .raised (.notImplementedError
                    "No support for automated installation of ovftool") }
  | _ => { path := "/usr/bin/" ++ t.name, version := "2.0", install := .ok "" "" }

/-- Host on which mkisofs is absent and its installer raises an
exception outside the except clause; the other tools are found. -/
def hostUnexpected : Tool → HelperState := fun t =>
  match t with
  | .mkisofs => { path := "", version := "", install := .raised (.otherExc "boom") }
  | _ => { path := "/usr/bin/" ++ t.name, version := "1.0", install := .ok "" "" }

/-- Trivial stand-in for textwrap: fill returns its input unchanged. -/
def idFill : WrapperConfig → String → String := fun _ s => s

/-- C1 counterexample: with fatdisk absent under verify-only and
ignore-errors unset, run records "NOT FOUND" for fatdisk but the local
result stays True, so run returns normally instead of signalling the
terminating failure the claim requires. -/
theorem c1_verify_only_counterexample :
    dictGet (run hostOneMissing true false idFill 80).resultsOf "fatdisk"
      = some "NOT FOUND"
    ∧ (run hostOneMissing true false idFill 80).isNormal = true
    ∧ (run hostOneMissing true false idFill 80).isEnvError = false :=
  ⟨rfl, rfl, rfl⟩

/-- C1 (amended): in verify-only mode, for every tool whose detection
finds no installed path, run records the outcome "NOT FOUND" for that
tool, but overall success is left unchanged, so run prints the report
and returns normally even when ignore-errors is not set. -/
theorem c1_verify_only_records_not_found (host : Tool → HelperState)
    (ie : Bool) (fillI : WrapperConfig → String → String) (w : Nat) :
    (run host true ie fillI w).isNormal = true
    ∧ ∀ t : Tool, (host t).path = "" →
        dictGet (run host true ie fillI w).resultsOf t.name
          = some "NOT FOUND" := by
  have hsome : ∀ t ∈ toolOrder, (toolOutcome true (host t)).isSome = true := by
    intro t _
    unfold toolOutcome
    by_cases hpp : (host t).path = "" <;> simp [hpp]
  obtain ⟨acc, hok⟩ := processAll_ok_of_isSome true host toolOrder initAcc hsome
  obtain ⟨_, hres, hmap, _⟩ := processAll_run_char true host acc hok
  have hfail : (toolOrder.any fun t => toolFailed true (host t)) = false := by
    rw [List.any_eq_false]
    intro t _
    unfold toolFailed
    by_cases hpp : (host t).path = "" <;> simp [hpp]
  have hresT : acc.result = true := by rw [hres, hfail]; rfl
  have hrun : run host true ie fillI w
      = RunOutcome.normal (reportLines (fillI (mkWrapper w)) acc.results)
          acc.results acc.installed_calls := by
    rw [run_eq_of_ok host true ie fillI w acc hok, hresT]
    simp
  constructor
  · rw [hrun]; rfl
  · intro t hpt
    rw [hrun]
    show dictGet acc.results t.name = some "NOT FOUND"
    rw [hmap]
    rw [dictGet_map_tools (fun u => (toolOutcome true (host u)).getD "")
      toolOrder toolOrder_names_nodup t (mem_toolOrder t)]
    have houtc : toolOutcome true (host t) = some "NOT FOUND" := by
      unfold toolOutcome
      simp [hpt]
    rw [houtc]
    rfl

/-- C1 witness for the amended claim, at a concrete host missing
fatdisk. -/
theorem c1_verify_only_records_not_found_witness :
    (run hostOneMissing true false idFill 80).isNormal = true
    ∧ dictGet (run hostOneMissing true false idFill 80).resultsOf
        Tool.fatdisk.name = some "NOT FOUND" :=
  ⟨(c1_verify_only_records_not_found hostOneMissing false idFill 80).1,
   (c1_verify_only_records_not_found hostOneMissing false idFill 80).2
     Tool.fatdisk rfl⟩

/-- C2: run raises the terminating EnvironmentError exactly when the
loop finished with result false and ignore-errors is unset; the error
carries errno 1 and the message "Unable to install some helpers"; in
every other completed run it returns normally. -/
theorem c2_exit_iff (host : Tool → HelperState) (vo ie : Bool)
    (fillI : WrapperConfig → String → String) (w : Nat) (b : Bool)
    (hb : overallResult vo host = some b) :
    ((run host vo ie fillI w).isEnvError = true ↔ (b = false ∧ ie = false))
    ∧ ((run host vo ie fillI w).isEnvError = true →
        (run host vo ie fillI w).errInfo
          = some (1, "Unable to install some helpers"))
    ∧ ((run host vo ie fillI w).isEnvError = false →
        (run host vo ie fillI w).isNormal = true) := by
  unfold overallResult at hb
  cases hok : processAll vo host toolOrder initAcc with
  | error ea => rw [hok] at hb; cases hb
  | ok acc =>
      rw [hok] at hb
      injection hb with hb'
      have hrun := run_eq_of_ok host vo ie fillI w acc hok
      rw [hb'] at hrun
      cases b <;> cases ie <;>
        simp [hrun, RunOutcome.isEnvError, RunOutcome.isNormal, RunOutcome.errInfo]

/-- C2 witness: on a host where ovftool's installation fails, with
ignore-errors unset, run raises EnvironmentError(1, ...). -/
theorem c2_exit_iff_witness :
    (run hostMixed false false idFill 80).isEnvError = true
    ∧ (run hostMixed false false idFill 80).errInfo
        = some (1, "Unable to install some helpers") := by
  have h := c2_exit_iff hostMixed false false idFill 80 false rfl
  exact ⟨h.1.mpr ⟨rfl, rfl⟩, h.2.1 (h.1.mpr ⟨rfl, rfl⟩)⟩

/-- C3: a caught installation failure is converted into that tool's
report entry and marks the run failed, while every other tool is still
processed; a successful installation and an independent failure both
appear in the results. -/
theorem c3_partial_failure_both_reported (host : Tool → HelperState)
    (ie : Bool) (fillI : WrapperConfig → String → String) (w : Nat)
    (X Y : Tool) (e : PyExc) (pX vX : String)
    (hXpath : (host X).path = "") (hXinst : (host X).install = .ok pX vX)
    (hYpath : (host Y).path = "") (hYinst : (host Y).install = .raised e)
    (hcaught : e.caught = true)
    (hdone : (overallResult false host).isSome = true) :
    dictGet (run host false ie fillI w).resultsOf X.name
        = some (installedText pX vX)
    ∧ dictGet (run host false ie fillI w).resultsOf Y.name
        = some (failedText e.msg)
    ∧ overallResult false host = some false
    ∧ ∀ t : Tool,
        (dictGet (run host false ie fillI w).resultsOf t.name).isSome
          = true := by
  unfold overallResult at hdone ⊢
  cases hok : processAll false host toolOrder initAcc with
  | error ea => rw [hok] at hdone; cases hdone
  | ok acc =>
      obtain ⟨_, hres, hmap, _⟩ := processAll_run_char false host acc hok
      have hresults : (run host false ie fillI w).resultsOf = acc.results := by
        rw [run_eq_of_ok host false ie fillI w acc hok]
        split <;> rfl
      have hgetX : toolOutcome false (host X) = some (installedText pX vX) := by
        unfold toolOutcome
        simp [hXpath, hXinst]
      have hgetY : toolOutcome false (host Y) = some (failedText e.msg) := by
        unfold toolOutcome
        simp [hYpath, hYinst, hcaught]
      have hfailY : toolFailed false (host Y) = true := by
        unfold toolFailed
        simp [hYpath, hYinst, hcaught]
      have hflag : acc.result = false := by
        rw [hres]
        have : (toolOrder.any fun t => toolFailed false (host t)) = true :=
          List.any_eq_true.mpr ⟨Y, mem_toolOrder Y, hfailY⟩
        rw [this]
        rfl
      refine ⟨?_, ?_, ?_, ?_⟩
      · rw [hresults, hmap,
          dictGet_map_tools (fun u => (toolOutcome false (host u)).getD "")
            toolOrder toolOrder_names_nodup X (mem_toolOrder X), hgetX]
        rfl
      · rw [hresults, hmap,
          dictGet_map_tools (fun u => (toolOutcome false (host u)).getD "")
            toolOrder toolOrder_names_nodup Y (mem_toolOrder Y), hgetY]
        rfl
      · show some acc.result = some false
        rw [hflag]
      · intro t
        rw [hresults, hmap,
          dictGet_map_tools (fun u => (toolOutcome false (host u)).getD "")
            toolOrder toolOrder_names_nodup t (mem_toolOrder t)]
        rfl

/-- C3 witness: on a concrete host, fatdisk installs successfully and
ovftool's installation fails; both outcomes appear in the results. -/
theorem c3_partial_failure_both_reported_witness :
    dictGet (run hostMixed false false idFill 80).resultsOf "fatdisk"
      = some "successfully installed to /usr/local/bin/fatdisk, version 1.0.2"
    ∧ dictGet (run hostMixed false false idFill 80).resultsOf "ovftool"
      = some "INSTALLATION FAILED: No support for automated installation of ovftool" := by
  have h := c3_partial_failure_both_reported hostMixed false idFill 80
    Tool.fatdisk Tool.ovftool
    (.notImplementedError "No support for automated installation of ovftool")
    "/usr/local/bin/fatdisk" "1.0.2" rfl rfl rfl rfl rfl rfl
  exact ⟨h.1, h.2.1⟩

/-- C4: a tool whose detection reports a non-empty path never has its
installer invoked, in both verify-only and install mode; when every
tool is present the run makes no install calls at all. -/
theorem c4_present_never_installed (host : Tool → HelperState) (vo ie : Bool)
    (fillI : WrapperConfig → String → String) (w : Nat) (t : Tool) :
    ((host t).path ≠ "" → t.name ∉ (run host vo ie fillI w).installCalls)
    ∧ ((∀ u : Tool, (host u).path ≠ "") →
        (run host vo ie fillI w).installCalls = []) := by
  constructor
  · intro hp
    have h := processAll_not_called vo host t hp toolOrder initAcc
      (by simp [initAcc])
    cases hok : processAll vo host toolOrder initAcc with
    | ok acc =>
        have hni := h.1 acc hok
        rw [run_eq_of_ok host vo ie fillI w acc hok]
        split
        · exact hni
        · exact hni
    | error ea =>
        obtain ⟨e, acc'⟩ := ea
        have hni := h.2 e acc' hok
        rw [run_eq_of_error host vo ie fillI w e acc' hok]
        exact hni
  · intro hall
    have hsome : ∀ u ∈ toolOrder, (toolOutcome vo (host u)).isSome = true := by
      intro u _
      unfold toolOutcome
      simp [hall u]
    obtain ⟨acc, hok⟩ := processAll_ok_of_isSome vo host toolOrder initAcc hsome
    obtain ⟨_, _, _, hcalls⟩ := processAll_run_char vo host acc hok
    have hemp : installCallsFor vo host toolOrder = [] := by
      unfold installCallsFor
      have hf : (toolOrder.filter fun u => (host u).path == "" && !vo) = [] := by
        rw [List.filter_eq_nil_iff]
        intro u _
        simp [hall u]
      rw [hf]
      rfl
    rw [run_eq_of_ok host vo ie fillI w acc hok]
    split
    · show acc.installed_calls = []
      rw [hcalls, hemp]
    · show acc.installed_calls = []
      rw [hcalls, hemp]

/-- C4 witness: with every tool present, fatdisk's installer is not
invoked and the run makes no install calls. -/
theorem c4_present_never_installed_witness :
    Tool.fatdisk.name ∉ (run hostAllPresent false false idFill 80).installCalls
    ∧ (run hostAllPresent false false idFill 80).installCalls = [] := by
  have h := c4_present_never_installed hostAllPresent false false idFill 80
    Tool.fatdisk
  exact ⟨h.1 (by decide), h.2 (fun u => by cases u <;> decide)⟩

theorem head_append (a b : String) (c : Char) (h : a.data.head? = some c) :
    (a ++ b).data.head? = some c := by
  have hd : (a ++ b).data = a.data ++ b.data := rfl
  rw [hd]
  cases had : a.data with
  | nil => rw [had] at h; cases h
  | cons x l =>
      rw [had] at h
      simpa using h

theorem ne_of_head_ne (s t : String) (c d : Char)
    (hs : s.data.head? = some c) (ht : t.data.head? = some d)
    (hcd : c ≠ d) : s ≠ t := by
  intro he
  rw [he, ht] at hs
  injection hs with h1
  exact hcd h1.symm

theorem run_completed_shape (host : Tool → HelperState) (vo ie : Bool)
    (fillI : WrapperConfig → String → String) (w : Nat) (acc : LoopAcc)
    (hok : processAll vo host toolOrder initAcc = Except.ok acc) :
    (run host vo ie fillI w).resultsOf = acc.results
    ∧ (run host vo ie fillI w).printed
        = reportLines (fillI (mkWrapper w)) acc.results
    ∧ (run host vo ie fillI w).installCalls = acc.installed_calls
    ∧ ((run host vo ie fillI w).isNormal = true
        ∨ (run host vo ie fillI w).isEnvError = true) := by
  rw [run_eq_of_ok host vo ie fillI w acc hok]
  refine ⟨?_, ?_, ?_, ?_⟩
  · split <;> rfl
  · split <;> rfl
  · split <;> rfl
  · split
    · right; rfl
    · left; rfl

/-- C5 counterexample: on a host where every tool is present, fatdisk's
recorded outcome is "version 1.0, present at /usr/bin/fatdisk", which
matches none of the four line forms the claim lists. -/
theorem c5_outcome_forms_counterexample :
    dictGet (run hostAllPresent false false idFill 80).resultsOf "fatdisk"
      = some "version 1.0, present at /usr/bin/fatdisk"
    ∧ (∀ p v, "version 1.0, present at /usr/bin/fatdisk"
        ≠ "found at " ++ p ++ ", version " ++ v)
    ∧ (∀ p v, "version 1.0, present at /usr/bin/fatdisk"
        ≠ "installed to " ++ p ++ ", version " ++ v)
    ∧ "version 1.0, present at /usr/bin/fatdisk" ≠ "NOT FOUND"
    ∧ (∀ d, "version 1.0, present at /usr/bin/fatdisk"
        ≠ "installation failed: " ++ d) := by
  refine ⟨rfl, ?_, ?_, ?_, ?_⟩
  · intro p v
    refine ne_of_head_ne _ _ 'v' 'f' rfl ?_ (by decide)
    exact head_append _ v 'f'
      (head_append _ ", version " 'f' (head_append "found at " p 'f' rfl))
  · intro p v
    refine ne_of_head_ne _ _ 'v' 'i' rfl ?_ (by decide)
    exact head_append _ v 'i'
      (head_append _ ", version " 'i' (head_append "installed to " p 'i' rfl))
  · exact ne_of_head_ne _ _ 'v' 'N' rfl rfl (by decide)
  · intro d
    exact ne_of_head_ne _ _ 'v' 'i' rfl
      (head_append "installation failed: " d 'i' rfl) (by decide)

/-- C5 (amended): each recorded outcome line is of one of exactly these
forms: "version <v>, present at <path>" for a tool found by detection,
"NOT FOUND" for a tool absent in verify-only mode, "successfully
installed to <path>, version <v>" for a tool installed during the run,
and "INSTALLATION FAILED: <detail>" for a failed installation. -/
theorem c5_outcome_forms (host : Tool → HelperState) (vo ie : Bool)
    (fillI : WrapperConfig → String → String) (w : Nat) (k s : String)
    (hks : dictGet (run host vo ie fillI w).resultsOf k = some s) :
    fourForms s := by
  cases hok : processAll vo host toolOrder initAcc with
  | error ea =>
      obtain ⟨e, acc'⟩ := ea
      rw [run_eq_of_error host vo ie fillI w e acc' hok] at hks
      have hcontra : (none : Option String) = some s := hks
      cases hcontra
  | ok acc =>
      obtain ⟨hall, _, hmap, _⟩ := processAll_run_char vo host acc hok
      obtain ⟨hresults, _, _, _⟩ :=
        run_completed_shape host vo ie fillI w acc hok
      rw [hresults, hmap] at hks
      have hmem := dictGet_mem _ _ _ hks
      rw [List.mem_map] at hmem
      obtain ⟨t, _, hte⟩ := hmem
      have hsv : (toolOutcome vo (host t)).getD "" = s := congrArg Prod.snd hte
      have hs := hall t
      cases hto : toolOutcome vo (host t) with
      | none => rw [hto] at hs; cases hs
      | some s' =>
          have hseq : s' = s := by rw [hto] at hsv; exact hsv
          rw [← hseq]
          exact toolOutcome_forms vo (host t) s' hto

/-- C5 witness for the amended claim: vmdktool's recorded line on a
concrete host has the found-by-detection form. -/
theorem c5_outcome_forms_witness :
    dictGet (run hostMixed false false idFill 80).resultsOf "vmdktool"
      = some "version 2.0, present at /usr/bin/vmdktool"
    ∧ fourForms "version 2.0, present at /usr/bin/vmdktool" :=
  ⟨rfl, c5_outcome_forms hostMixed false false idFill 80 "vmdktool" _ rfl⟩

/-- C6: the printed report is the header line, the separator line, one
filled entry per tool key in ascending sorted order, and a trailing
empty line; the wrapper is built with the terminal width, no initial
indent and a 14-space continuation indent, and each entry's outcome
text starts at column 14, where continuation lines are indented. -/
theorem c6_report_format (host : Tool → HelperState) (vo ie : Bool)
    (fillI : WrapperConfig → String → String) (w : Nat) (b : Bool)
    (hb : overallResult vo host = some b) :
    (run host vo ie fillI w).printed
      = "Results:" :: "-------------" ::
          ((sortedKeys (run host vo ie fillI w).resultsOf).map
              (fun k => fillI (mkWrapper w)
                (entryLine k
                  ((dictGet (run host vo ie fillI w).resultsOf k).getD "")))
            ++ [""])
    ∧ sortedKeys (run host vo ie fillI w).resultsOf
        = ["fatdisk", "mkisofs", "ovftool", "qemu-img", "vmdktool"]
    ∧ List.Pairwise (fun x y => strLe x y = true)
        (sortedKeys (run host vo ie fillI w).resultsOf)
    ∧ (mkWrapper w).width = w
    ∧ (mkWrapper w).initial_indent = ""
    ∧ (mkWrapper w).subsequent_indent = String.mk (List.replicate 14 ' ')
    ∧ ∀ k ∈ sortedKeys (run host vo ie fillI w).resultsOf,
        (format13 (k ++ ":") ++ " ").length = 14 := by
  unfold overallResult at hb
  cases hok : processAll vo host toolOrder initAcc with
  | error ea => rw [hok] at hb; cases hb
  | ok acc =>
      obtain ⟨_, _, hmap, _⟩ := processAll_run_char vo host acc hok
      obtain ⟨hresults, hprint, _, _⟩ :=
        run_completed_shape host vo ie fillI w acc hok
      have hkeys : sortedKeys (run host vo ie fillI w).resultsOf
          = ["fatdisk", "mkisofs", "ovftool", "qemu-img", "vmdktool"] := by
        rw [hresults, hmap]
        rfl
      refine ⟨?_, hkeys, ?_, rfl, rfl, rfl, ?_⟩
      · rw [hprint, hresults]
        rfl
      · rw [hkeys]
        decide
      · rw [hkeys]
        decide

/-- C6 witness at a concrete host. -/
theorem c6_report_format_witness :
    sortedKeys (run hostAllPresent false false idFill 80).resultsOf
      = ["fatdisk", "mkisofs", "ovftool", "qemu-img", "vmdktool"]
    ∧ (mkWrapper 80).width = 80 :=
  ⟨(c6_report_format hostAllPresent false false idFill 80 true rfl).2.1,
   (c6_report_format hostAllPresent false false idFill 80 true rfl).2.2.2.1⟩

/-- C7: in every completed run (normal return or the final raise),
every tool's outcome has an entry in the results dict and its filled
report line is among the printed lines: the full report is printed
before the terminating failure is raised, so a partial failure is
never silent. -/
theorem c7_every_outcome_printed (host : Tool → HelperState) (vo ie : Bool)
    (fillI : WrapperConfig → String → String) (w : Nat) (b : Bool)
    (hb : overallResult vo host = some b) :
    ((run host vo ie fillI w).isNormal = true
      ∨ (run host vo ie fillI w).isEnvError = true)
    ∧ ∀ t : Tool,
        (dictGet (run host vo ie fillI w).resultsOf t.name).isSome = true
        ∧ fillI (mkWrapper w)
            (entryLine t.name
              ((dictGet (run host vo ie fillI w).resultsOf t.name).getD ""))
          ∈ (run host vo ie fillI w).printed := by
  unfold overallResult at hb
  cases hok : processAll vo host toolOrder initAcc with
  | error ea => rw [hok] at hb; cases hb
  | ok acc =>
      obtain ⟨_, _, hmap, _⟩ := processAll_run_char vo host acc hok
      obtain ⟨hresults, hprint, _, hshape⟩ :=
        run_completed_shape host vo ie fillI w acc hok
      refine ⟨hshape, ?_⟩
      intro t
      have hget2 : dictGet acc.results t.name
          = some ((toolOutcome vo (host t)).getD "") := by
        rw [hmap]
        exact dictGet_map_tools (fun u => (toolOutcome vo (host u)).getD "")
          toolOrder toolOrder_names_nodup t (mem_toolOrder t)
      have hget : dictGet (run host vo ie fillI w).resultsOf t.name
          = some ((toolOutcome vo (host t)).getD "") := by
        rw [hresults]
        exact hget2
      constructor
      · rw [hget]
        rfl
      · have hkeys : sortedKeys acc.results
            = ["fatdisk", "mkisofs", "ovftool", "qemu-img", "vmdktool"] := by
          rw [hmap]
          rfl
        have hmemk : t.name ∈ sortedKeys acc.results := by
          rw [hkeys]
          cases t <;> decide
        have hmem := List.mem_map_of_mem
          (fun k => fillI (mkWrapper w)
            (entryLine k ((dictGet acc.results k).getD ""))) hmemk
        have hmem2 : fillI (mkWrapper w)
            (entryLine t.name ((dictGet acc.results t.name).getD ""))
            ∈ List.map (fun k => fillI (mkWrapper w)
                (entryLine k ((dictGet acc.results k).getD "")))
              (sortedKeys acc.results) := hmem
        rw [hget2] at hmem2
        simp only [Option.getD_some] at hmem2
        rw [hget, hprint]
        simp only [Option.getD_some]
        unfold reportLines
        exact List.mem_cons_of_mem _ (List.mem_cons_of_mem _
          (List.mem_append_left _ hmem2))

/-- C7 witness: ovftool's failure line is among the printed lines on a
concrete host with a failed installation. -/
theorem c7_every_outcome_printed_witness :
    idFill (mkWrapper 80)
      (entryLine Tool.ovftool.name
        ((dictGet (run hostMixed false false idFill 80).resultsOf
            Tool.ovftool.name).getD ""))
      ∈ (run hostMixed false false idFill 80).printed :=
  ((c7_every_outcome_printed hostMixed false false idFill 80 false rfl).2
    Tool.ovftool).2

/-- C8: with every tool present and detection unchanged between two
runs (same path and version per tool), the two runs produce identical
outcomes, reports included, and neither invokes any installer. -/
theorem c8_idempotent (h1 h2 : Tool → HelperState) (vo ie : Bool)
    (fillI : WrapperConfig → String → String) (w : Nat)
    (hagree : ∀ t : Tool, (h1 t).path = (h2 t).path
        ∧ (h1 t).version = (h2 t).version)
    (hpresent : ∀ t : Tool, (h1 t).path ≠ "") :
    run h1 vo ie fillI w = run h2 vo ie fillI w
    ∧ (run h1 vo ie fillI w).installCalls = []
    ∧ (run h2 vo ie fillI w).installCalls = [] := by
  have hpresent2 : ∀ t : Tool, (h2 t).path ≠ "" := by
    intro t
    rw [← (hagree t).1]
    exact hpresent t
  have houtc : ∀ t : Tool, toolOutcome vo (h1 t) = some (presentText (h1 t)) := by
    intro t
    unfold toolOutcome
    simp [hpresent t]
  have houtc2 : ∀ t : Tool, toolOutcome vo (h2 t) = some (presentText (h2 t)) := by
    intro t
    unfold toolOutcome
    simp [hpresent2 t]
  have hpt : ∀ t : Tool, presentText (h1 t) = presentText (h2 t) := by
    intro t
    unfold presentText
    rw [(hagree t).1, (hagree t).2]
  obtain ⟨acc1, hok1⟩ := processAll_ok_of_isSome vo h1 toolOrder initAcc
    (fun t _ => by rw [houtc t]; rfl)
  obtain ⟨acc2, hok2⟩ := processAll_ok_of_isSome vo h2 toolOrder initAcc
    (fun t _ => by rw [houtc2 t]; rfl)
  obtain ⟨_, hres1, hmap1, hcalls1⟩ := processAll_run_char vo h1 acc1 hok1
  obtain ⟨_, hres2, hmap2, hcalls2⟩ := processAll_run_char vo h2 acc2 hok2
  have hfail1 : (toolOrder.any fun t => toolFailed vo (h1 t)) = false := by
    rw [List.any_eq_false]
    intro t _
    unfold toolFailed
    simp [hpresent t]
  have hfail2 : (toolOrder.any fun t => toolFailed vo (h2 t)) = false := by
    rw [List.any_eq_false]
    intro t _
    unfold toolFailed
    simp [hpresent2 t]
  have hcallsE1 : installCallsFor vo h1 toolOrder = [] := by
    unfold installCallsFor
    have hf : (toolOrder.filter fun u => (h1 u).path == "" && !vo) = [] := by
      rw [List.filter_eq_nil_iff]
      intro u _
      simp [hpresent u]
    rw [hf]
    rfl
  have hcallsE2 : installCallsFor vo h2 toolOrder = [] := by
    unfold installCallsFor
    have hf : (toolOrder.filter fun u => (h2 u).path == "" && !vo) = [] := by
      rw [List.filter_eq_nil_iff]
      intro u _
      simp [hpresent2 u]
    rw [hf]
    rfl
  have hmapsEq : acc1.results = acc2.results := by
    rw [hmap1, hmap2]
    apply List.map_congr_left
    intro t _
    rw [houtc t, houtc2 t]
    simp [hpt t]
  have hres1T : acc1.result = true := by rw [hres1, hfail1]; rfl
  have hres2T : acc2.result = true := by rw [hres2, hfail2]; rfl
  have hcallsN1 : acc1.installed_calls = [] := by rw [hcalls1, hcallsE1]
  have hcallsN2 : acc2.installed_calls = [] := by rw [hcalls2, hcallsE2]
  have hrunEq1 : run h1 vo ie fillI w
      = RunOutcome.normal (reportLines (fillI (mkWrapper w)) acc2.results)
          acc2.results [] := by
    rw [run_eq_of_ok h1 vo ie fillI w acc1 hok1, hres1T, hmapsEq, hcallsN1]
    simp
  have hrunEq2 : run h2 vo ie fillI w
      = RunOutcome.normal (reportLines (fillI (mkWrapper w)) acc2.results)
          acc2.results [] := by
    rw [run_eq_of_ok h2 vo ie fillI w acc2 hok2, hres2T, hcallsN2]
    simp
  refine ⟨by rw [hrunEq1, hrunEq2], by rw [hrunEq1]; rfl, by rw [hrunEq2]; rfl⟩

/-- C8 witness at a concrete all-present host. -/
theorem c8_idempotent_witness :
    run hostAllPresent false false idFill 80
      = run hostAllPresent false false idFill 80
    ∧ (run hostAllPresent false false idFill 80).installCalls = [] := by
  have h := c8_idempotent hostAllPresent hostAllPresent false false idFill 80
    (fun t => ⟨rfl, rfl⟩) (fun t => by cases t <;> decide)
  exact ⟨h.1, h.2.1⟩

/-- C9: in every completed run the results dict has exactly one entry
per managed tool, keyed fatdisk, mkisofs, ovftool, qemu-img, vmdktool,
and no others; every entry is one of the four outcome kinds. -/
theorem c9_results_exactly_five (host : Tool → HelperState) (vo ie : Bool)
    (fillI : WrapperConfig → String → String) (w : Nat) (b : Bool)
    (hb : overallResult vo host = some b) :
    (run host vo ie fillI w).resultsOf.map Prod.fst
      = ["fatdisk", "mkisofs", "ovftool", "qemu-img", "vmdktool"]
    ∧ ∀ p ∈ (run host vo ie fillI w).resultsOf, fourForms p.2 := by
  unfold overallResult at hb
  cases hok : processAll vo host toolOrder initAcc with
  | error ea => rw [hok] at hb; cases hb
  | ok acc =>
      obtain ⟨hall, _, hmap, _⟩ := processAll_run_char vo host acc hok
      obtain ⟨hresults, _, _, _⟩ :=
        run_completed_shape host vo ie fillI w acc hok
      constructor
      · rw [hresults, hmap]
        rfl
      · intro p hp
        rw [hresults, hmap] at hp
        rw [List.mem_map] at hp
        obtain ⟨t, _, hte⟩ := hp
        have hsv : (toolOutcome vo (host t)).getD "" = p.2 :=
          congrArg Prod.snd hte
        have hs := hall t
        cases hto : toolOutcome vo (host t) with
        | none => rw [hto] at hs; cases hs
        | some s' =>
            have hseq : s' = p.2 := by rw [hto] at hsv; exact hsv
            rw [← hseq]
            exact toolOutcome_forms vo (host t) s' hto

/-- C9 witness at a concrete mixed host. -/
theorem c9_results_exactly_five_witness :
    (run hostMixed false false idFill 80).resultsOf.map Prod.fst
      = ["fatdisk", "mkisofs", "ovftool", "qemu-img", "vmdktool"] :=
  (c9_results_exactly_five hostMixed false false idFill 80 false rfl).1

/-- C10: when a tool's install_helper raises an exception not named in
the except clause, run propagates it at once: the outcome is the
uncaught exception, the installers invoked are exactly those of the
tools before it plus this tool (so no later tool is processed), and
nothing is printed. -/
theorem c10_uncaught_propagates (host : Tool → HelperState) (ie : Bool)
    (fillI : WrapperConfig → String → String) (w : Nat)
    (ts1 ts2 : List Tool) (t : Tool) (e : PyExc)
    (hsplit : toolOrder = ts1 ++ t :: ts2)
    (hfirst : ∀ u ∈ ts1, (toolOutcome false (host u)).isSome = true)
    (hpath : (host t).path = "")
    (hinst : (host t).install = InstallResult.raised e)
    (hcaught : e.caught = false) :
    run host false ie fillI w
      = RunOutcome.uncaught e (installCallsFor false host ts1 ++ [t.name])
    ∧ (run host false ie fillI w).printed = [] := by
  obtain ⟨acc1, hok1⟩ := processAll_ok_of_isSome false host ts1 initAcc hfirst
  have hnd : ((ts1 ++ t :: ts2).map Tool.name).Nodup := by
    rw [← hsplit]
    exact toolOrder_names_nodup
  have hnd1 : (ts1.map Tool.name).Nodup := by
    rw [List.map_append] at hnd
    exact (List.nodup_append.mp hnd).1
  obtain ⟨_, _, _, hcalls1⟩ := processAll_ok_char false host ts1 initAcc acc1
    (by simp [initAcc]) hnd1 hok1
  have hcalls1E : acc1.installed_calls = installCallsFor false host ts1 := by
    simpa [initAcc] using hcalls1
  have hstep : processTool false t.name (host t) acc1
      = Except.error
          (e, { acc1 with installed_calls := acc1.installed_calls ++ [t.name] }) := by
    unfold processTool
    simp [hpath, hinst, hcaught]
  have herr : processAll false host toolOrder initAcc
      = Except.error
          (e, { acc1 with installed_calls := acc1.installed_calls ++ [t.name] }) := by
    rw [hsplit, processAll_append, hok1]
    show processAll false host (t :: ts2) acc1 = _
    rw [processAll_cons, hstep]
  have hrun := run_eq_of_error host false ie fillI w e _ herr
  constructor
  · rw [hrun]
    show RunOutcome.uncaught e (acc1.installed_calls ++ [t.name]) = _
    rw [hcalls1E]
  · rw [hrun]
    rfl

/-- C10 witness: mkisofs raises an unexpected exception on a concrete
host; fatdisk (present, before it) triggers no install call, and the
run ends as the uncaught exception with nothing printed. -/
theorem c10_uncaught_propagates_witness :
    run hostUnexpected false false idFill 80
      = RunOutcome.uncaught (PyExc.otherExc "boom")
          (installCallsFor false hostUnexpected [Tool.fatdisk]
            ++ [Tool.mkisofs.name])
    ∧ (run hostUnexpected false false idFill 80).printed = [] :=
  c10_uncaught_propagates hostUnexpected false idFill 80
    [Tool.fatdisk] [Tool.ovftool, Tool.qemu_img, Tool.vmdktool]
    Tool.mkisofs (PyExc.otherExc "boom") rfl (by decide) rfl rfl rfl

end COT
